import Mathlib

/-
Verification of the level-aggregation engine of the orderbook viewer.

The source has three API revisions:
  * revision 1 (api/orderbook.ts, first document): `compressLevels`, the
    equal-volume bucketing policy over [price, amount] pairs, and a
    `reshapeOrderbook` that maps it over every entry;
  * revision 2 (api/orderbook.ts, second document): the price-impact *range*
    variant of `compressLevelsByPriceImpact` over [amount, price] pairs,
    plus `calculateMidPrice` and a pair-grouping `reshapeOrderbook`;
  * revision 3 (part_002): the price-impact *threshold* variant of
    `compressLevelsByPriceImpact`, with `calculateMidPrice` and
    `reshapeOrderbook` textually identical to revision 2.

JavaScript numbers are modelled as exact rationals; the numeric literals
1e-10, 1e-9, 0.001, 0.005, 0.01, 0.02 become the corresponding rationals.
-/

/-- A level is a pair of rationals. Revision 1 reads it as (price, amount);
revisions 2 and 3 read it as (amount, price), matching the destructuring in
each source function. -/
abbrev Level : Type := ℚ × ℚ

/-- The literal `1e-10` used as closing slack in `compressLevels`. -/
def eps10 : ℚ := 1 / 10000000000

/-- The tolerance `1e-9` used by the spec's conservation properties. -/
def tol9 : ℚ := 1 / 1000000000

/-- Sum of amounts of a level list in revision 1's (price, amount) reading. -/
def sumAmountsPriceFirst (levels : List Level) : ℚ :=
  (levels.map (fun l => l.2)).sum

/-- Sum of amounts of a level list in the (amount, price) reading used by the
price-impact policies. -/
def sumAmountsAmountFirst (levels : List Level) : ℚ :=
  (levels.map (fun l => l.1)).sum

/-- Target bucket count of `compressLevels`: 2 for lengths 2..5, otherwise 3.
The source computes this after the length-0 and length-1 early returns; the
formula agrees with the source on every length at which it is consulted. -/
def targetCountFor (n : ℕ) : ℕ :=
  if 2 ≤ n ∧ n ≤ 5 then 2 else 3

/-- `accumulatedAmount > 0 ? weightedPriceSum / accumulatedAmount : fallback`:
the bucket-closing expression of `compressLevels`, which avoids dividing by a
zero accumulated amount by emitting the fallback raw price instead. -/
def closeBucket (wps acc fallback : ℚ) : ℚ :=
  if 0 < acc then wps / acc else fallback

/-- Fuel bound for the inner `while` of `compressLevels`. The loop body pushes
a bucket on every iteration, and on the inputs considered here it terminates
well within this bound; the fuel only makes the recursion structural. -/
def spillFuel : ℕ := 64

/-- The inner `while (remainingAmount > 0 && levelIndex < targetCount)` loop of
`compressLevels`, which spreads the remainder of a level that overflowed its
bucket across subsequent buckets. State is (rem, acc, wps, lvl, out); note that
the source *assigns* (rather than adds to) `accumulatedAmount`, does not reset
`weightedPriceSum` between iterations, and resets state after a push only while
`levelIndex < targetCount - 1`. -/
def spillLoop (price per : ℚ) (target fuel : ℕ) (rem acc wps : ℚ) (lvl : ℕ)
    (out : List Level) : ℚ × ℚ × ℕ × List Level :=
  if fuel = 0 then (acc, wps, lvl, out)
  else if 0 < rem ∧ lvl < target then
    let amt := if rem ≤ per then rem else per
    let wps2 := wps + price * amt
    let acc2 := amt
    let rem2 := rem - amt
    if per - eps10 ≤ acc2 ∨ rem2 = 0 then
      if lvl < target - 1 then
        spillLoop price per target (fuel - 1) rem2 0 0 (lvl + 1)
          (out ++ [(closeBucket wps2 acc2 price, acc2)])
      else
        spillLoop price per target (fuel - 1) rem2 acc2 wps2 lvl
          (out ++ [(closeBucket wps2 acc2 price, acc2)])
    else
      spillLoop price per target (fuel - 1) rem2 acc2 wps2 lvl out
  else (acc, wps, lvl, out)
termination_by fuel
decreasing_by all_goals omega

/-- The main `for` loop of `compressLevels` over the input levels, with state
(acc, wps, lvl, out). A level reads as [price, amount]. The loop runs while
levels remain and `levelIndex < targetCount`; a level that fits in the open
bucket is accumulated (closing the bucket at the `amountPerLevel - 1e-10`
threshold or on the last level), and an overflowing level closes the bucket
with exactly the remaining capacity and sends its remainder to `spillLoop`. -/
def walkLevels (per : ℚ) (target : ℕ) :
    List Level → ℚ → ℚ → ℕ → List Level → ℚ × ℚ × List Level
  | [], acc, wps, _, out => (acc, wps, out)
  | (price, amount) :: rest, acc, wps, lvl, out =>
    if lvl < target then
      if amount ≤ per - acc then
        if per - eps10 ≤ acc + amount ∨ rest = [] then
          walkLevels per target rest 0 0 (lvl + 1)
            (out ++ [(closeBucket (wps + price * amount) (acc + amount) price,
              acc + amount)])
        else
          walkLevels per target rest (acc + amount) (wps + price * amount) lvl out
      else
        match spillLoop price per target spillFuel (amount - (per - acc)) 0 0
          (lvl + 1)
          (out ++ [(closeBucket (wps + price * (per - acc)) (acc + (per - acc))
            price, acc + (per - acc))]) with
        | (acc2, wps2, lvl2, out2) => walkLevels per target rest acc2 wps2 lvl2 out2
    else (acc, wps, out)

/-- Revision 1's `compressLevels`: equal-volume bucketing of [price, amount]
levels. Empty input returns empty, one level is returned as is, input already
at or below the target count is returned as is; otherwise the levels are
walked, and a leftover accumulator above 1e-10 is flushed as an extra bucket
only while fewer than `targetCount` buckets exist, with the last level's raw
price as the zero-amount fallback. -/
def compressLevels (levels : List Level) : List Level :=
  if levels.length = 0 then []
  else if levels.length = 1 then levels
  else if levels.length ≤ targetCountFor levels.length then levels
  else
    let target := targetCountFor levels.length
    let amountPerLevel := sumAmountsPriceFirst levels / (target : ℚ)
    match walkLevels amountPerLevel target levels 0 0 0 [] with
    | (acc, wps, out) =>
      if eps10 < acc ∧ out.length < target then
        out ++ [(closeBucket wps acc ((levels.getLast?).getD (0, 0)).1, acc)]
      else
        out

/-- The `side` field of an orderbook entry. -/
inductive Side : Type
  | bid
  | ask
  deriving DecidableEq

/-- One entry of the upstream snapshot. -/
structure OrderbookEntry : Type where
  base_symbol : String
  quote_symbol : String
  base_address : String
  quote_address : String
  side : Side
  levels : List Level
  deriving DecidableEq

/-- The `{ bid, ask }` record stored per pair key by `reshapeOrderbook`. -/
structure PairEntry : Type where
  bid : Option OrderbookEntry
  ask : Option OrderbookEntry
  deriving DecidableEq

/-- The grouping key built by `reshapeOrderbook` from an entry's identity
fields. -/
def pairKey (entry : OrderbookEntry) : String :=
  entry.base_symbol ++ "/" ++ entry.quote_symbol ++ ":" ++ entry.base_address
    ++ "/" ++ entry.quote_address

/-- One step of the first grouping pass of `reshapeOrderbook`: ensure the key
is present and set the entry on its side (later entries of the same key and
side overwrite earlier ones, as the source mutates the stored record). -/
def pairStep (m : String → Option PairEntry) (entry : OrderbookEntry) :
    String → Option PairEntry :=
  let key := pairKey entry
  let pair := (m key).getD { bid := none, ask := none }
  let pair2 :=
    match entry.side with
    | Side.bid => { pair with bid := some entry }
    | Side.ask => { pair with ask := some entry }
  fun k => if k = key then some pair2 else m k

/-- The pair map built by the first pass of `reshapeOrderbook`. -/
def buildPairMap (data : List OrderbookEntry) : String → Option PairEntry :=
  data.foldl pairStep (fun _ => none)

/-- `calculateMidPrice`, identical in revisions 2 and 3: with both sides
present and non-empty, the mid is the mean of the two first-level prices
(`levels[0][1]`, the second pair component); otherwise the current entry's
first-level price; otherwise null. -/
def calculateMidPrice (bidEntry askEntry : Option OrderbookEntry)
    (currentEntry : OrderbookEntry) : Option ℚ :=
  match bidEntry, askEntry with
  | some b, some a =>
    match b.levels, a.levels with
    | bb :: _, ba :: _ => some ((bb.2 + ba.2) / 2)
    | _, _ =>
      match currentEntry.levels with
      | l :: _ => some l.2
      | [] => none
  | _, _ =>
    match currentEntry.levels with
    | l :: _ => some l.2
    | [] => none

/-- One step of the second pass of the price-impact `reshapeOrderbook`: a
missing pair record is skipped (`continue`), a null mid price passes the entry
through unchanged, and otherwise only `levels` is replaced. -/
def reshapeStep (compress : List Level → ℚ → Side → List Level)
    (pm : String → Option PairEntry) (result : List OrderbookEntry)
    (entry : OrderbookEntry) : List OrderbookEntry :=
  match pm (pairKey entry) with
  | none => result
  | some pair =>
    match calculateMidPrice pair.bid pair.ask entry with
    | none => result ++ [entry]
    | some mid => result ++ [{ entry with levels := compress entry.levels mid entry.side }]

/-- The price-impact `reshapeOrderbook` of revisions 2 and 3, parameterised by
the compression policy (the only difference between the two revisions). -/
def reshapeOrderbookWith (compress : List Level → ℚ → Side → List Level)
    (data : List OrderbookEntry) : List OrderbookEntry :=
  data.foldl (reshapeStep compress (buildPairMap data)) []

/-- The per-entry action the price-impact `reshapeOrderbook` performs, used to
state its behaviour as a `List.map`. -/
def applyEntry (compress : List Level → ℚ → Side → List Level)
    (pm : String → Option PairEntry) (entry : OrderbookEntry) : OrderbookEntry :=
  match pm (pairKey entry) with
  | none => entry
  | some pair =>
    match calculateMidPrice pair.bid pair.ask entry with
    | none => entry
    | some mid => { entry with levels := compress entry.levels mid entry.side }

/-- The pair record `reshapeOrderbook` consults for an entry of `data`. -/
def pairFor (data : List OrderbookEntry) (entry : OrderbookEntry) : PairEntry :=
  (buildPairMap data (pairKey entry)).getD { bid := none, ask := none }

/-- The identity fields of an entry: everything except `levels`. -/
def entryIdentity (entry : OrderbookEntry) : String × String × String × String × Side :=
  (entry.base_symbol, entry.quote_symbol, entry.base_address, entry.quote_address,
    entry.side)

/-- The price of an entry's first level in the (amount, price) reading
(`levels[0][1]` in the source), defaulting to 0 on an empty level list. -/
def firstPrice (entry : OrderbookEntry) : ℚ :=
  ((entry.levels.head?).getD (0, 0)).2

/-- Both optional sides are present and each has at least one level: the guard
of `calculateMidPrice`'s first branch. -/
def bothPresent (bidEntry askEntry : Option OrderbookEntry) : Prop :=
  ∃ b a, bidEntry = some b ∧ askEntry = some a ∧ b.levels ≠ [] ∧ a.levels ≠ []

namespace EqualVolume

/-- Revision 1's `reshapeOrderbook`: map `compressLevels` over every entry,
keeping all other fields. -/
def reshapeOrderbook (data : List OrderbookEntry) : List OrderbookEntry :=
  data.map (fun entry => { entry with levels := compressLevels entry.levels })

end EqualVolume

namespace PriceImpactRange

/-- One step of the per-band accumulation of the range variant of
`compressLevelsByPriceImpact`. State is (acc, sum, hasLevels); a level reads as
[amount, price]. The range test uses `impact * 2` as the outer bound. -/
def bandStep (midPrice : ℚ) (side : Side) (impact : ℚ) (st : ℚ × ℚ × Bool)
    (l : Level) : ℚ × ℚ × Bool :=
  let amount := l.1
  let price := l.2
  match side with
  | Side.bid =>
    if price ≤ midPrice * (1 - impact) ∧ midPrice * (1 - impact * 2) < price then
      (st.1 + amount, st.2.1 + price * amount, true)
    else st
  | Side.ask =>
    if midPrice * (1 + impact) ≤ price ∧ price < midPrice * (1 + impact * 2) then
      (st.1 + amount, st.2.1 + price * amount, true)
    else st

/-- The output levels one impact band contributes: the accumulated
[amount, weighted price] if the band saw a level with positive total amount. -/
def bandLevels (levels : List Level) (midPrice : ℚ) (side : Side) (impact : ℚ) :
    List Level :=
  let st := levels.foldl (bandStep midPrice side impact) (0, 0, false)
  if st.2.2 = true ∧ 0 < st.1 then [(st.1, st.2.1 / st.1)] else []

/-- Revision 2's `compressLevelsByPriceImpact`: bands at impacts 0.1%, 0.5%,
2% relative to the mid price, emitted in that order. -/
def compressLevelsByPriceImpact (levels : List Level) (midPrice : ℚ)
    (side : Side) : List Level :=
  if levels.length = 0 then []
  else
    bandLevels levels midPrice side (1 / 1000)
      ++ bandLevels levels midPrice side (5 / 1000)
      ++ bandLevels levels midPrice side (2 / 100)

/-- Revision 2's `reshapeOrderbook`. -/
def reshapeOrderbook (data : List OrderbookEntry) : List OrderbookEntry :=
  reshapeOrderbookWith compressLevelsByPriceImpact data

/-- The strict one-sided nearness test of a level's price to the mid price
used to describe the range variant's blind spot: for a bid, price above
`mid * (1 - 0.001)`; for an ask, price below `mid * (1 + 0.001)`. -/
def withinTenBps (midPrice : ℚ) (side : Side) (l : Level) : Bool :=
  match side with
  | Side.bid => decide (midPrice * (1 - 1 / 1000) < l.2)
  | Side.ask => decide (l.2 < midPrice * (1 + 1 / 1000))

end PriceImpactRange

namespace PriceImpactThreshold

/-- The three accumulators of the threshold variant: (amount, sum) for the
buckets impact < 0.1%, 0.1% ≤ impact < 1%, impact ≥ 1%. -/
structure ImpactBuckets : Type where
  a0 : ℚ
  s0 : ℚ
  a1 : ℚ
  s1 : ℚ
  a2 : ℚ
  s2 : ℚ
  deriving DecidableEq

/-- One step of the threshold variant's single pass: compute the one-sided
price impact of a level ([amount, price] reading) and add its amount and
price-weighted amount to exactly one of the three buckets. -/
def assignLevel (midPrice : ℚ) (side : Side) (b : ImpactBuckets) (l : Level) :
    ImpactBuckets :=
  let amount := l.1
  let price := l.2
  let priceImpact :=
    match side with
    | Side.bid => (midPrice - price) / midPrice
    | Side.ask => (price - midPrice) / midPrice
  if priceImpact < 1 / 1000 then
    { b with a0 := b.a0 + amount, s0 := b.s0 + price * amount }
  else if priceImpact < 1 / 100 then
    { b with a1 := b.a1 + amount, s1 := b.s1 + price * amount }
  else
    { b with a2 := b.a2 + amount, s2 := b.s2 + price * amount }

/-- Total amount across the three buckets. -/
def bucketsTotal (b : ImpactBuckets) : ℚ := b.a0 + b.a1 + b.a2

/-- Revision 3's `compressLevelsByPriceImpact`: empty input returns empty, one
level is returned as is, and otherwise every level is assigned to exactly one
of the three impact buckets, with each non-empty bucket emitted as
[amount, weighted price] in increasing-impact order. -/
def compressLevelsByPriceImpact (levels : List Level) (midPrice : ℚ)
    (side : Side) : List Level :=
  if levels.length = 0 then []
  else if levels.length = 1 then levels
  else
    let b := levels.foldl (assignLevel midPrice side) ⟨0, 0, 0, 0, 0, 0⟩
    (if 0 < b.a0 then [(b.a0, b.s0 / b.a0)] else [])
      ++ (if 0 < b.a1 then [(b.a1, b.s1 / b.a1)] else [])
      ++ (if 0 < b.a2 then [(b.a2, b.s2 / b.a2)] else [])

/-- Revision 3's `reshapeOrderbook`. -/
def reshapeOrderbook (data : List OrderbookEntry) : List OrderbookEntry :=
  reshapeOrderbookWith compressLevelsByPriceImpact data

end PriceImpactThreshold

/-
Theorems. Concrete runs of `compressLevels` are evaluated one loop iteration
at a time (`rw` with the defining equation, then `norm_num` to settle the
numeric branch conditions), since rational arithmetic does not reduce inside
the kernel.
-/

set_option maxRecDepth 4000

/-- C1: the spec asserts that the equal-volume policy strictly conserves
volume (sum of output amounts = sum of input amounts within 1e-9) for every
input. The code does not: on a uniform book of seven levels of amount 3 the
walk closes the third bucket while part of level 6 is still pending and then
stops, silently dropping the remainder and all of level 7; the output sums to
16 against an input sum of 21. This evaluates the code at that failing
input. -/
theorem spec_c1_equal_volume_leak :
    compressLevels [((1:ℚ), (3:ℚ)), (1, 3), (1, 3), (1, 3), (1, 3), (1, 3), (1, 3)]
      = [(1, 7), (1, 2), (1, 7)]
    ∧ sumAmountsPriceFirst [((1:ℚ), (3:ℚ)), (1, 3), (1, 3), (1, 3), (1, 3), (1, 3), (1, 3)] = 21
    ∧ sumAmountsPriceFirst [((1:ℚ), (7:ℚ)), (1, 2), (1, 7)] = 16
    ∧ tol9 < |(16:ℚ) - 21| := by
  have h : walkLevels (7:ℚ) 3
      [((1:ℚ), (3:ℚ)), (1, 3), (1, 3), (1, 3), (1, 3), (1, 3), (1, 3)] 0 0 0 []
      = (0, 0, [(1, 7), (1, 2), (1, 7)]) := by
    rw [walkLevels]; norm_num [eps10, closeBucket, List.cons_ne_nil]
    rw [walkLevels]; norm_num [eps10, closeBucket, List.cons_ne_nil]
    rw [walkLevels]; norm_num [eps10, closeBucket, List.cons_ne_nil, spillFuel]
    rw [spillLoop]; norm_num [eps10, closeBucket, List.cons_ne_nil]
    rw [spillLoop]; norm_num [eps10, closeBucket, List.cons_ne_nil]
    rw [walkLevels]; norm_num [eps10, closeBucket, List.cons_ne_nil]
    rw [walkLevels]; norm_num [eps10, closeBucket, List.cons_ne_nil]
    rw [walkLevels]; norm_num [eps10, closeBucket, List.cons_ne_nil, spillFuel]
    rw [spillLoop]; norm_num [eps10, closeBucket, List.cons_ne_nil]
    rw [walkLevels]; norm_num [eps10, closeBucket, List.cons_ne_nil]
  refine ⟨?_, by norm_num [sumAmountsPriceFirst],
    by norm_num [sumAmountsPriceFirst], by norm_num [tol9]⟩
  rw [compressLevels]
  norm_num [targetCountFor, sumAmountsPriceFirst, h, eps10]

/-- C5: the spec asserts the output of `compressLevels` contains at most
`targetCount` levels. On input [[1,10],[1,25],[1,5]] (three levels, so
`targetCount = 2`) the inner split loop pushes a bucket without advancing
`levelIndex` when it already sits at the last bucket, and the outer loop then
closes one more: the code emits three levels. This evaluates the code at that
failing input. -/
theorem spec_c5_output_bound_violation :
    targetCountFor [((1:ℚ), (10:ℚ)), (1, 25), (1, 5)].length = 2
    ∧ compressLevels [((1:ℚ), (10:ℚ)), (1, 25), (1, 5)] = [(1, 20), (1, 15), (1, 20)]
    ∧ 2 < (compressLevels [((1:ℚ), (10:ℚ)), (1, 25), (1, 5)]).length := by
  have h : walkLevels (20:ℚ) 2 [((1:ℚ), (10:ℚ)), (1, 25), (1, 5)] 0 0 0 []
      = (0, 0, [(1, 20), (1, 15), (1, 20)]) := by
    rw [walkLevels]; norm_num [eps10, closeBucket, List.cons_ne_nil, spillFuel]
    rw [walkLevels]; norm_num [eps10, closeBucket, List.cons_ne_nil, spillFuel]
    rw [spillLoop]; norm_num [eps10, closeBucket, List.cons_ne_nil]
    rw [spillLoop]; norm_num [eps10, closeBucket, List.cons_ne_nil]
    rw [walkLevels]; norm_num [eps10, closeBucket, List.cons_ne_nil]
    rw [walkLevels]
  have hc : compressLevels [((1:ℚ), (10:ℚ)), (1, 25), (1, 5)] = [(1, 20), (1, 15), (1, 20)] := by
    rw [compressLevels]
    norm_num [targetCountFor, sumAmountsPriceFirst, h, eps10]
  refine ⟨by norm_num [targetCountFor], hc, ?_⟩
  rw [hc]
  norm_num

/-- C3: the range variant of `compressLevelsByPriceImpact` does not conserve
volume: a bid level priced within 0.1% of the mid price fails every band's
range test, so its amount is absent from the output. At mid 100 with levels of
amounts 5 at prices 100 and 99.95 the output is empty while the input sums
to 10. -/
theorem spec_c3_range_leaks :
    ∃ (levels : List Level) (midPrice : ℚ) (side : Side),
      tol9 < |sumAmountsAmountFirst
          (PriceImpactRange.compressLevelsByPriceImpact levels midPrice side)
        - sumAmountsAmountFirst levels| := by
  refine ⟨[(5, 100), (5, 99.95)], 100, Side.bid, ?_⟩
  norm_num [PriceImpactRange.compressLevelsByPriceImpact,
    PriceImpactRange.bandLevels, PriceImpactRange.bandStep,
    sumAmountsAmountFirst, tol9]

/-- C7: idempotence boundary. `compressLevels` returns the empty list on empty
input and returns the input unchanged whenever its length is at most its
target count (so for lengths 0, 1 and 2); the threshold variant of
`compressLevelsByPriceImpact` returns the input unchanged whenever its length
is at most 1. -/
theorem spec_c7_identity_boundary :
    (∀ levels : List Level,
      levels.length ≤ targetCountFor levels.length → compressLevels levels = levels)
    ∧ (∀ (levels : List Level) (midPrice : ℚ) (side : Side), levels.length ≤ 1 →
      PriceImpactThreshold.compressLevelsByPriceImpact levels midPrice side = levels) := by
  constructor
  · intro levels h
    rw [compressLevels]
    split_ifs with h0 h1
    · exact (List.length_eq_zero.mp h0).symm
    · rfl
    · rfl
  · intro levels midPrice side h
    rw [PriceImpactThreshold.compressLevelsByPriceImpact]
    split_ifs with h0 h1
    · exact (List.length_eq_zero.mp h0).symm
    · rfl
    · exfalso; omega

/-- Witness for C7 at concrete inputs: a two-level list is below the target
count 2 and is returned unchanged, and a one-level list is returned unchanged
by the threshold variant. -/
theorem spec_c7_identity_boundary_witness :
    ([((3:ℚ), (4:ℚ)), (5, 6)].length ≤ targetCountFor [((3:ℚ), (4:ℚ)), (5, 6)].length
      ∧ compressLevels [((3:ℚ), (4:ℚ)), (5, 6)] = [((3:ℚ), (4:ℚ)), (5, 6)])
    ∧ ([((2:ℚ), (9:ℚ))].length ≤ 1
      ∧ PriceImpactThreshold.compressLevelsByPriceImpact [((2:ℚ), (9:ℚ))] 7 Side.ask
        = [((2:ℚ), (9:ℚ))]) :=
  ⟨⟨by norm_num [targetCountFor],
      spec_c7_identity_boundary.1 _ (by norm_num [targetCountFor])⟩,
    ⟨by norm_num,
      spec_c7_identity_boundary.2 _ 7 Side.ask (by norm_num)⟩⟩

/-- On levels whose amounts are all zero, the walk of `compressLevels` closes
one zero-amount bucket per level — each emitted at the level's raw price by
the `closeBucket` fallback, never dividing by the zero accumulator — until
`targetCount` buckets exist. -/
theorem walkLevels_all_zero :
    ∀ (L : List Level) (lvl : ℕ) (out : List Level), (∀ l ∈ L, l.2 = 0) →
      walkLevels 0 3 L 0 0 lvl out = (0, 0, out ++ L.take (3 - lvl)) := by
  intro L
  induction L with
  | nil => intro lvl out _; rw [walkLevels]; simp
  | cons l rest ih =>
    intro lvl out hz
    obtain ⟨p, a⟩ := l
    have ha : a = 0 := hz (p, a) (by simp)
    subst ha
    by_cases hlvl : lvl < 3
    · rw [walkLevels, if_pos hlvl]
      norm_num [eps10]
      rw [ih (lvl + 1) (out ++ [(closeBucket 0 0 p, 0)])
        (fun l hl => hz l (List.mem_cons_of_mem _ hl))]
      have hcb : closeBucket 0 0 p = p := by simp [closeBucket]
      rw [hcb]
      have h3 : 3 - lvl = (3 - (lvl + 1)) + 1 := by omega
      rw [h3, List.take_succ_cons]
      simp
    · rw [walkLevels, if_neg hlvl]
      have h0 : 3 - lvl = 0 := by omega
      rw [h0]
      simp

/-- C10: whenever `compressLevels` closes a bucket whose accumulated amount is
zero, the emitted price is the raw fallback price, not the weighted-average
quotient, so the function never divides by a zero accumulated amount. First
conjunct: the closing expression itself. Second conjunct: on any input longer
than five levels whose amounts are all zero, every bucket closes with a zero
accumulator and the function totally computes the first three levels
unchanged. -/
theorem spec_c10_zero_amount_close :
    (∀ wps price : ℚ, closeBucket wps 0 price = price)
    ∧ ∀ levels : List Level, (∀ l ∈ levels, l.2 = 0) → 5 < levels.length →
        compressLevels levels = levels.take 3 := by
  constructor
  · intro wps price; simp [closeBucket]
  · intro levels hz hlen
    have htot : sumAmountsPriceFirst levels = 0 := by
      rw [sumAmountsPriceFirst]
      apply List.sum_eq_zero
      intro x hx
      simp only [List.mem_map] at hx
      obtain ⟨l, hl, rfl⟩ := hx
      exact hz l hl
    have htarget : targetCountFor levels.length = 3 := by
      rw [targetCountFor, if_neg]
      omega
    have hw := walkLevels_all_zero levels 0 [] hz
    rw [compressLevels, if_neg (by omega : ¬levels.length = 0),
      if_neg (by omega : ¬levels.length = 1),
      if_neg (by rw [htarget]; omega : ¬levels.length ≤ targetCountFor levels.length)]
    rw [htarget, htot]
    norm_num [hw, eps10]

/-- Witness for C10: the closing expression at a zero accumulator returns the
raw price 7, and a six-level all-zero-amount input is compressed to its first
three levels with raw prices preserved. -/
theorem spec_c10_zero_amount_close_witness :
    closeBucket 5 0 7 = 7
    ∧ (∀ l ∈ ([((11:ℚ), (0:ℚ)), (12, 0), (13, 0), (14, 0), (15, 0), (16, 0)] : List Level), l.2 = 0)
    ∧ 5 < ([((11:ℚ), (0:ℚ)), (12, 0), (13, 0), (14, 0), (15, 0), (16, 0)] : List Level).length
    ∧ compressLevels [((11:ℚ), (0:ℚ)), (12, 0), (13, 0), (14, 0), (15, 0), (16, 0)]
      = [((11:ℚ), (0:ℚ)), (12, 0), (13, 0), (14, 0), (15, 0), (16, 0)].take 3 :=
  ⟨spec_c10_zero_amount_close.1 5 7,
    by intro l hl; fin_cases hl <;> rfl,
    by norm_num,
    spec_c10_zero_amount_close.2 _ (by intro l hl; fin_cases hl <;> rfl) (by norm_num)⟩

/-- Each step of the threshold variant adds the level's amount to exactly one
of the three buckets: the total across buckets grows by exactly that amount. -/
theorem assignLevel_total (midPrice : ℚ) (side : Side)
    (b : PriceImpactThreshold.ImpactBuckets) (l : Level) :
    PriceImpactThreshold.bucketsTotal (PriceImpactThreshold.assignLevel midPrice side b l)
      = PriceImpactThreshold.bucketsTotal b + l.1 := by
  obtain ⟨amt, price⟩ := l
  cases side <;>
    simp only [PriceImpactThreshold.assignLevel, PriceImpactThreshold.bucketsTotal] <;>
    split_ifs <;> simp <;> ring

/-- Folding the threshold assignment over a level list grows the bucket total
by exactly the sum of the amounts. -/
theorem foldl_assign_total (midPrice : ℚ) (side : Side) :
    ∀ (L : List Level) (b : PriceImpactThreshold.ImpactBuckets),
      PriceImpactThreshold.bucketsTotal
          (L.foldl (PriceImpactThreshold.assignLevel midPrice side) b)
        = PriceImpactThreshold.bucketsTotal b + sumAmountsAmountFirst L := by
  intro L
  induction L with
  | nil => intro b; simp [sumAmountsAmountFirst]
  | cons l rest ih =>
    intro b
    rw [List.foldl_cons, ih, assignLevel_total]
    simp [sumAmountsAmountFirst]
    ring

/-- With non-negative amounts, every bucket accumulator of the threshold
variant stays non-negative. -/
theorem foldl_assign_nonneg (midPrice : ℚ) (side : Side) :
    ∀ (L : List Level) (b : PriceImpactThreshold.ImpactBuckets), (∀ l ∈ L, 0 ≤ l.1) →
      0 ≤ b.a0 → 0 ≤ b.a1 → 0 ≤ b.a2 →
      0 ≤ (L.foldl (PriceImpactThreshold.assignLevel midPrice side) b).a0
      ∧ 0 ≤ (L.foldl (PriceImpactThreshold.assignLevel midPrice side) b).a1
      ∧ 0 ≤ (L.foldl (PriceImpactThreshold.assignLevel midPrice side) b).a2 := by
  intro L
  induction L with
  | nil => intro b _ h0 h1 h2; exact ⟨h0, h1, h2⟩
  | cons l rest ih =>
    intro b hnn h0 h1 h2
    obtain ⟨amt, price⟩ := l
    have hl : (0:ℚ) ≤ amt := hnn (amt, price) (by simp)
    rw [List.foldl_cons]
    have hstep :
        0 ≤ (PriceImpactThreshold.assignLevel midPrice side b (amt, price)).a0
        ∧ 0 ≤ (PriceImpactThreshold.assignLevel midPrice side b (amt, price)).a1
        ∧ 0 ≤ (PriceImpactThreshold.assignLevel midPrice side b (amt, price)).a2 := by
      cases side <;> simp only [PriceImpactThreshold.assignLevel] <;> split_ifs <;>
        exact ⟨by simp; linarith, by simp; linarith, by simp; linarith⟩
    exact ih _ (fun x hx => hnn x (List.mem_cons_of_mem _ hx)) hstep.1 hstep.2.1 hstep.2.2

/-- C2: the threshold variant of `compressLevelsByPriceImpact` assigns each
level to exactly one of the three impact buckets (the bucket total grows by
exactly the level's amount at every step), and for every input of length at
least 2 with non-negative amounts, every mid price and every side, the sum of
output amounts equals the sum of input amounts within 1e-9 (in fact
exactly). -/
theorem spec_c2_threshold_conserves (levels : List Level) (midPrice : ℚ) (side : Side)
    (hlen : 2 ≤ levels.length) (hnn : ∀ l ∈ levels, 0 ≤ l.1) :
    (∀ (b : PriceImpactThreshold.ImpactBuckets) (l : Level),
        PriceImpactThreshold.bucketsTotal (PriceImpactThreshold.assignLevel midPrice side b l)
          = PriceImpactThreshold.bucketsTotal b + l.1)
    ∧ |sumAmountsAmountFirst
          (PriceImpactThreshold.compressLevelsByPriceImpact levels midPrice side)
        - sumAmountsAmountFirst levels| ≤ tol9 := by
  refine ⟨assignLevel_total midPrice side, ?_⟩
  rw [PriceImpactThreshold.compressLevelsByPriceImpact,
    if_neg (by omega : ¬levels.length = 0), if_neg (by omega : ¬levels.length = 1)]
  dsimp only
  have htot := foldl_assign_total midPrice side levels ⟨0, 0, 0, 0, 0, 0⟩
  obtain ⟨h0, h1, h2⟩ :=
    foldl_assign_nonneg midPrice side levels ⟨0, 0, 0, 0, 0, 0⟩ hnn le_rfl le_rfl le_rfl
  set B := levels.foldl (PriceImpactThreshold.assignLevel midPrice side) ⟨0, 0, 0, 0, 0, 0⟩
    with hB
  have hsum : ∀ (a s : ℚ), 0 ≤ a →
      ((if 0 < a then [(a, s / a)] else [] : List Level).map (fun l => l.1)).sum = a := by
    intro a s ha
    split_ifs with h
    · simp
    · simp; linarith
  rw [sumAmountsAmountFirst]
  simp only [List.map_append, List.sum_append]
  rw [hsum _ _ h0, hsum _ _ h1, hsum _ _ h2]
  have habs : ∀ x : ℚ, x = 0 → |x| ≤ tol9 := by
    intro x hx
    rw [hx, abs_zero]
    norm_num [tol9]
  apply habs
  have htot2 : B.a0 + B.a1 + B.a2 = sumAmountsAmountFirst levels := by
    simpa [PriceImpactThreshold.bucketsTotal] using htot
  linarith

/-- Witness for C2 at the spec's Scenario E: mid 100, bid levels
[(5, 99.95), (5, 95)] — impacts 0.0005 and 0.05 land in the first and third
buckets and the output amounts sum to the input amounts. -/
theorem spec_c2_threshold_conserves_witness :
    (2 ≤ ([((5:ℚ), (99.95:ℚ)), (5, 95)] : List Level).length
      ∧ ∀ l ∈ ([((5:ℚ), (99.95:ℚ)), (5, 95)] : List Level), 0 ≤ l.1)
    ∧ |sumAmountsAmountFirst
          (PriceImpactThreshold.compressLevelsByPriceImpact
            [((5:ℚ), (99.95:ℚ)), (5, 95)] 100 Side.bid)
        - sumAmountsAmountFirst [((5:ℚ), (99.95:ℚ)), (5, 95)]| ≤ tol9 :=
  ⟨⟨by norm_num, by intro l hl; fin_cases hl <;> norm_num⟩,
    (spec_c2_threshold_conserves [((5:ℚ), (99.95:ℚ)), (5, 95)] 100 Side.bid
      (by norm_num) (by intro l hl; fin_cases hl <;> norm_num)).2⟩

/-- A bid level priced strictly above `mid * (1 - 0.001)` fails the range test
of every band whose impact is at least 0.001, for every rational mid price. -/
theorem near_mid_not_in_bid_band (midPrice p impact : ℚ) (himp : 1 / 1000 ≤ impact)
    (hnear : midPrice * (1 - 1 / 1000) < p) :
    ¬(p ≤ midPrice * (1 - impact) ∧ midPrice * (1 - impact * 2) < p) := by
  rintro ⟨h2, h3⟩
  have hmi : 0 < midPrice * impact := by nlinarith
  have h4 : midPrice * impact < midPrice * (1 / 1000) := by nlinarith
  rcases lt_trichotomy midPrice 0 with hm | hm | hm
  · have : midPrice * impact < 0 :=
      mul_neg_of_neg_of_pos hm (lt_of_lt_of_le (by norm_num) himp)
    linarith
  · rw [hm] at hmi
    simp at hmi
  · have : midPrice * (1 / 1000) ≤ midPrice * impact :=
      mul_le_mul_of_nonneg_left himp (le_of_lt hm)
    linarith

/-- An ask level priced strictly below `mid * (1 + 0.001)` fails the range
test of every band whose impact is at least 0.001, for every rational mid
price. -/
theorem near_mid_not_in_ask_band (midPrice p impact : ℚ) (himp : 1 / 1000 ≤ impact)
    (hnear : p < midPrice * (1 + 1 / 1000)) :
    ¬(midPrice * (1 + impact) ≤ p ∧ p < midPrice * (1 + impact * 2)) := by
  rintro ⟨h2, h3⟩
  have hmi : 0 < midPrice * impact := by nlinarith
  have h4 : midPrice * impact < midPrice * (1 / 1000) := by nlinarith
  rcases lt_trichotomy midPrice 0 with hm | hm | hm
  · have : midPrice * impact < 0 :=
      mul_neg_of_neg_of_pos hm (lt_of_lt_of_le (by norm_num) himp)
    linarith
  · rw [hm] at hmi
    simp at hmi
  · have : midPrice * (1 / 1000) ≤ midPrice * impact :=
      mul_le_mul_of_nonneg_left himp (le_of_lt hm)
    linarith

/-- A level within 0.1% of the mid price is a no-op for every band
accumulation step with impact at least 0.001. -/
theorem bandStep_skip (midPrice : ℚ) (side : Side) (impact : ℚ)
    (himp : 1 / 1000 ≤ impact) (st : ℚ × ℚ × Bool) (l : Level)
    (hnear : PriceImpactRange.withinTenBps midPrice side l = true) :
    PriceImpactRange.bandStep midPrice side impact st l = st := by
  obtain ⟨amt, p⟩ := l
  cases side
  · have hn : midPrice * (1 - 1 / 1000) < p := by
      simpa [PriceImpactRange.withinTenBps] using hnear
    simp only [PriceImpactRange.bandStep]
    rw [if_neg (near_mid_not_in_bid_band midPrice p impact himp hn)]
  · have hn : p < midPrice * (1 + 1 / 1000) := by
      simpa [PriceImpactRange.withinTenBps] using hnear
    simp only [PriceImpactRange.bandStep]
    rw [if_neg (near_mid_not_in_ask_band midPrice p impact himp hn)]

/-- Folding a function over a list equals folding it over the sublist kept by
a filter, whenever dropped elements are no-ops for the fold. -/
theorem foldl_filter_of_skip {α β : Type} (p : α → Bool) (f : β → α → β)
    (h : ∀ (b : β) (a : α), p a = false → f b a = b) :
    ∀ (L : List α) (b : β), L.foldl f b = (L.filter p).foldl f b := by
  intro L
  induction L with
  | nil => intro b; rfl
  | cons a rest ih =>
    intro b
    rw [List.foldl_cons]
    cases hpa : p a
    · rw [h b a hpa, List.filter_cons_of_neg (by simp [hpa]), ih]
    · rw [List.filter_cons_of_pos (by simp [hpa]), List.foldl_cons, ih]

/-- Each band of the range variant computes the same accumulation whether or
not levels within 0.1% of the mid price are present. -/
theorem bandLevels_filter (levels : List Level) (midPrice : ℚ) (side : Side)
    (impact : ℚ) (himp : 1 / 1000 ≤ impact) :
    PriceImpactRange.bandLevels levels midPrice side impact
      = PriceImpactRange.bandLevels
          (levels.filter (fun l => !PriceImpactRange.withinTenBps midPrice side l))
          midPrice side impact := by
  have hf : levels.foldl (PriceImpactRange.bandStep midPrice side impact) (0, 0, false)
      = (levels.filter (fun l => !PriceImpactRange.withinTenBps midPrice side l)).foldl
          (PriceImpactRange.bandStep midPrice side impact) (0, 0, false) :=
    foldl_filter_of_skip _ _
      (fun st l hl => bandStep_skip midPrice side impact himp st l (by simpa using hl))
      levels (0, 0, false)
  simp only [PriceImpactRange.bandLevels]
  rw [hf]

/-- C4: the range variant of `compressLevelsByPriceImpact` excludes every
level within 0.1% of the mid price (price above `mid * (1 - 0.001)` for bids,
below `mid * (1 + 0.001)` for asks) from all three bands: its output on any
input equals its output with all such levels removed, so their volume is
absent from the output. -/
theorem spec_c4_range_near_mid_blind_spot :
    ∀ (levels : List Level) (midPrice : ℚ) (side : Side),
      PriceImpactRange.compressLevelsByPriceImpact levels midPrice side
        = PriceImpactRange.compressLevelsByPriceImpact
            (levels.filter (fun l => !PriceImpactRange.withinTenBps midPrice side l))
            midPrice side := by
  intro levels midPrice side
  have hb : ∀ impact : ℚ, 1 / 1000 ≤ impact →
      PriceImpactRange.bandLevels levels midPrice side impact
        = PriceImpactRange.bandLevels
            (levels.filter (fun l => !PriceImpactRange.withinTenBps midPrice side l))
            midPrice side impact :=
    fun impact himp => bandLevels_filter levels midPrice side impact himp
  simp only [PriceImpactRange.compressLevelsByPriceImpact]
  by_cases h0 : levels.length = 0
  · have hnil : levels = [] := List.length_eq_zero.mp h0
    subst hnil
    simp
  · rw [if_neg h0]
    by_cases hf0 : (levels.filter
        (fun l => !PriceImpactRange.withinTenBps midPrice side l)).length = 0
    · rw [if_pos hf0]
      rw [hb (1 / 1000) le_rfl, hb (5 / 1000) (by norm_num), hb (2 / 100) (by norm_num)]
      have hfe : levels.filter
          (fun l => !PriceImpactRange.withinTenBps midPrice side l) = [] :=
        List.length_eq_zero.mp hf0
      rw [hfe]
      simp [PriceImpactRange.bandLevels]
    · rw [if_neg hf0, hb (1 / 1000) le_rfl, hb (5 / 1000) (by norm_num),
        hb (2 / 100) (by norm_num)]

/-- C6: the `calculateMidPrice` contract. With both side entries non-null and
each holding at least one level, the result is the mean of the two first-level
prices (the price field, i.e. the second pair component). Otherwise, when the
current entry has at least one level, the result is its first-level price; and
with no level anywhere the result is null. The function is total, so no error
is ever raised. -/
theorem spec_c6_mid_price_contract :
    (∀ (b a cur : OrderbookEntry), b.levels ≠ [] → a.levels ≠ [] →
      calculateMidPrice (some b) (some a) cur
        = some ((firstPrice b + firstPrice a) / 2))
    ∧ (∀ (bidEntry askEntry : Option OrderbookEntry) (cur : OrderbookEntry),
        ¬bothPresent bidEntry askEntry → cur.levels ≠ [] →
        calculateMidPrice bidEntry askEntry cur = some (firstPrice cur))
    ∧ (∀ (bidEntry askEntry : Option OrderbookEntry) (cur : OrderbookEntry),
        ¬bothPresent bidEntry askEntry → cur.levels = [] →
        calculateMidPrice bidEntry askEntry cur = none) := by
  refine ⟨?_, ?_, ?_⟩
  · intro b a cur hb ha
    obtain ⟨bb, bl, hbl⟩ := List.exists_cons_of_ne_nil hb
    obtain ⟨ba, al, hal⟩ := List.exists_cons_of_ne_nil ha
    simp [calculateMidPrice, hbl, hal, firstPrice]
  · intro be ae cur hnb hne
    obtain ⟨c, cl, hcl⟩ := List.exists_cons_of_ne_nil hne
    rcases be with _ | b <;> rcases ae with _ | a
    · simp [calculateMidPrice, hcl, firstPrice]
    · simp [calculateMidPrice, hcl, firstPrice]
    · simp [calculateMidPrice, hcl, firstPrice]
    · rcases hbl : b.levels with _ | ⟨bb, bl⟩ <;> rcases hal : a.levels with _ | ⟨ba, al⟩
      · simp [calculateMidPrice, hbl, hal, hcl, firstPrice]
      · simp [calculateMidPrice, hbl, hal, hcl, firstPrice]
      · simp [calculateMidPrice, hbl, hal, hcl, firstPrice]
      · exact absurd ⟨b, a, rfl, rfl, by simp [hbl], by simp [hal]⟩ hnb
  · intro be ae cur hnb hce
    rcases be with _ | b <;> rcases ae with _ | a
    · simp [calculateMidPrice, hce]
    · simp [calculateMidPrice, hce]
    · simp [calculateMidPrice, hce]
    · rcases hbl : b.levels with _ | ⟨bb, bl⟩ <;> rcases hal : a.levels with _ | ⟨ba, al⟩
      · simp [calculateMidPrice, hbl, hal, hce]
      · simp [calculateMidPrice, hbl, hal, hce]
      · simp [calculateMidPrice, hbl, hal, hce]
      · exact absurd ⟨b, a, rfl, rfl, by simp [hbl], by simp [hal]⟩ hnb

/-- Witness for C6 at the spec's Scenario D: best bid price 100 and best ask
price 102 give mid 101; with the ask side absent, the current entry's best
price 100 is returned. -/
theorem spec_c6_mid_price_contract_witness :
    ((⟨"W", "E", "xb", "xq", Side.bid, [(5, 100)]⟩ : OrderbookEntry).levels ≠ []
      ∧ (⟨"W", "E", "xb", "xq", Side.ask, [(7, 102)]⟩ : OrderbookEntry).levels ≠ []
      ∧ calculateMidPrice
          (some ⟨"W", "E", "xb", "xq", Side.bid, [(5, 100)]⟩)
          (some ⟨"W", "E", "xb", "xq", Side.ask, [(7, 102)]⟩)
          ⟨"W", "E", "xb", "xq", Side.bid, [(5, 100)]⟩ = some 101)
    ∧ (¬bothPresent (some ⟨"W", "E", "xb", "xq", Side.bid, [(5, 100)]⟩) none
      ∧ calculateMidPrice (some ⟨"W", "E", "xb", "xq", Side.bid, [(5, 100)]⟩) none
          ⟨"W", "E", "xb", "xq", Side.bid, [(5, 100)]⟩ = some 100) := by
  refine ⟨⟨by simp, by simp, ?_⟩, ?_, ?_⟩
  · rw [spec_c6_mid_price_contract.1 _ _ _ (by simp) (by simp)]
    norm_num [firstPrice]
  · rintro ⟨b2, a2, hb2, ha2, hbl2, hal2⟩
    exact Option.noConfusion ha2
  · rw [spec_c6_mid_price_contract.2.1 _ _ _
      (by rintro ⟨b2, a2, hb2, ha2, hbl2, hal2⟩; exact Option.noConfusion ha2) (by simp)]
    norm_num [firstPrice]

/-- The first grouping pass: a key is present in the folded map as soon as
some entry of the list has it (or it was present already). -/
theorem foldl_pairStep_isSome :
    ∀ (l : List OrderbookEntry) (m : String → Option PairEntry) (k : String),
      ((∃ e ∈ l, pairKey e = k) ∨ (m k).isSome = true) →
      ((l.foldl pairStep m) k).isSome = true := by
  intro l
  induction l with
  | nil =>
    intro m k h
    rcases h with ⟨e, he, _⟩ | h
    · exact absurd he (List.not_mem_nil e)
    · exact h
  | cons a rest ih =>
    intro m k h
    rw [List.foldl_cons]
    apply ih
    by_cases hk : k = pairKey a
    · right
      simp [pairStep, hk]
    · rcases h with ⟨e, he, hke⟩ | hm
      · rcases List.mem_cons.mp he with rfl | he2
        · exact absurd hke.symm hk
        · exact Or.inl ⟨e, he2, hke⟩
      · right
        simpa [pairStep, hk] using hm

/-- Every entry of the snapshot finds its pair record in the map built by the
first pass of `reshapeOrderbook`, so the `continue` branch never fires. -/
theorem buildPairMap_isSome (data : List OrderbookEntry) (e : OrderbookEntry)
    (he : e ∈ data) : ((buildPairMap data) (pairKey e)).isSome = true :=
  foldl_pairStep_isSome data (fun _ => none) (pairKey e) (Or.inl ⟨e, he, rfl⟩)

/-- The second pass of the price-impact `reshapeOrderbook` is a `map` of the
per-entry action over the input, provided every entry's key is in the pair
map. -/
theorem foldl_reshapeStep_eq_map (compress : List Level → ℚ → Side → List Level)
    (pm : String → Option PairEntry) :
    ∀ (l : List OrderbookEntry) (res : List OrderbookEntry),
      (∀ e ∈ l, (pm (pairKey e)).isSome = true) →
      l.foldl (reshapeStep compress pm) res = res ++ l.map (applyEntry compress pm) := by
  intro l
  induction l with
  | nil => intro res _; simp
  | cons a rest ih =>
    intro res h
    rw [List.foldl_cons]
    obtain ⟨pair, hpair⟩ := Option.isSome_iff_exists.mp (h a (by simp))
    have hstep : reshapeStep compress pm res a = res ++ [applyEntry compress pm a] := by
      rcases hmid : calculateMidPrice pair.bid pair.ask a with _ | mid <;>
        simp [reshapeStep, applyEntry, hpair, hmid]
    rw [hstep, ih (res ++ [applyEntry compress pm a]) (fun x hx => h x (by simp [hx]))]
    simp

/-- The price-impact `reshapeOrderbook` equals mapping the per-entry action
over the snapshot. -/
theorem reshapeOrderbookWith_eq_map (compress : List Level → ℚ → Side → List Level)
    (data : List OrderbookEntry) :
    reshapeOrderbookWith compress data
      = data.map (applyEntry compress (buildPairMap data)) := by
  rw [reshapeOrderbookWith]
  rw [foldl_reshapeStep_eq_map compress (buildPairMap data) data []
    (fun e he => buildPairMap_isSome data e he)]
  simp

/-- The per-entry action of `reshapeOrderbook` never changes an entry's
identity fields. -/
theorem applyEntry_identity (compress : List Level → ℚ → Side → List Level)
    (pm : String → Option PairEntry) (e : OrderbookEntry) :
    entryIdentity (applyEntry compress pm e) = entryIdentity e := by
  rcases hp : pm (pairKey e) with _ | pair
  · simp [applyEntry, hp]
  · rcases hm : calculateMidPrice pair.bid pair.ask e with _ | mid <;>
      simp [applyEntry, hp, hm, entryIdentity]

/-- C9: frame property of the engine. Both the price-impact
`reshapeOrderbook` (for any compression policy, covering revisions 2 and 3)
and the equal-volume `reshapeOrderbook` return a snapshot with the same number
of entries in the same order, with every entry's identity fields
(base_symbol, quote_symbol, base_address, quote_address, side) unchanged; only
`levels` may differ. -/
theorem spec_c9_frame_property :
    ∀ (compress : List Level → ℚ → Side → List Level) (data : List OrderbookEntry),
      ((reshapeOrderbookWith compress data).length = data.length
        ∧ ∀ i : ℕ, ((reshapeOrderbookWith compress data).get? i).map entryIdentity
            = (data.get? i).map entryIdentity)
      ∧ ((EqualVolume.reshapeOrderbook data).length = data.length
        ∧ ∀ i : ℕ, ((EqualVolume.reshapeOrderbook data).get? i).map entryIdentity
            = (data.get? i).map entryIdentity) := by
  intro compress data
  constructor
  · rw [reshapeOrderbookWith_eq_map]
    refine ⟨by simp, ?_⟩
    intro i
    rw [List.get?_map]
    cases data.get? i with
    | none => rfl
    | some e => simp [applyEntry_identity]
  · rw [EqualVolume.reshapeOrderbook]
    refine ⟨by simp, ?_⟩
    intro i
    rw [List.get?_map]
    cases data.get? i with
    | none => rfl
    | some e => simp [entryIdentity]

/-- C8: soft-failure passthrough. In the price-impact `reshapeOrderbook` (any
compression policy), an entry whose resolved mid price is null is placed in
the output at its own position with its levels exactly unchanged; the function
is total, so no error is ever raised. -/
theorem spec_c8_null_mid_passthrough
    (compress : List Level → ℚ → Side → List Level) (data : List OrderbookEntry)
    (i : ℕ) (hi : i < data.length)
    (hmid : calculateMidPrice (pairFor data (data.get ⟨i, hi⟩)).bid
        (pairFor data (data.get ⟨i, hi⟩)).ask (data.get ⟨i, hi⟩) = none) :
    (reshapeOrderbookWith compress data).get? i = some (data.get ⟨i, hi⟩) := by
  rw [reshapeOrderbookWith_eq_map, List.get?_map, List.get?_eq_get hi]
  simp only [List.get_eq_getElem] at hmid ⊢
  rcases hp : buildPairMap data (pairKey data[i]) with _ | pair
  · simp [applyEntry, hp]
  · have hpf : pairFor data data[i] = pair := by
      rw [pairFor, hp]
      rfl
    rw [hpf] at hmid
    simp [applyEntry, hp, hmid]

/-- Witness for C8: a snapshot with a single bid entry holding no levels has a
null mid price, and the reshaped snapshot contains that entry unchanged. -/
theorem spec_c8_null_mid_passthrough_witness :
    (0 < ([⟨"B", "Q", "xb", "xq", Side.bid, []⟩] : List OrderbookEntry).length
      ∧ calculateMidPrice
          (pairFor [⟨"B", "Q", "xb", "xq", Side.bid, []⟩]
            (⟨"B", "Q", "xb", "xq", Side.bid, []⟩ : OrderbookEntry)).bid
          (pairFor [⟨"B", "Q", "xb", "xq", Side.bid, []⟩]
            (⟨"B", "Q", "xb", "xq", Side.bid, []⟩ : OrderbookEntry)).ask
          (⟨"B", "Q", "xb", "xq", Side.bid, []⟩ : OrderbookEntry) = none)
    ∧ (reshapeOrderbookWith PriceImpactThreshold.compressLevelsByPriceImpact
        [⟨"B", "Q", "xb", "xq", Side.bid, []⟩]).get? 0
      = some (⟨"B", "Q", "xb", "xq", Side.bid, []⟩ : OrderbookEntry) := by
  have hmid : calculateMidPrice
      (pairFor [(⟨"B", "Q", "xb", "xq", Side.bid, []⟩ : OrderbookEntry)]
        (⟨"B", "Q", "xb", "xq", Side.bid, []⟩ : OrderbookEntry)).bid
      (pairFor [(⟨"B", "Q", "xb", "xq", Side.bid, []⟩ : OrderbookEntry)]
        (⟨"B", "Q", "xb", "xq", Side.bid, []⟩ : OrderbookEntry)).ask
      (⟨"B", "Q", "xb", "xq", Side.bid, []⟩ : OrderbookEntry) = none := by
    simp [pairFor, buildPairMap, pairStep, pairKey, calculateMidPrice]
  exact ⟨⟨by norm_num, hmid⟩,
    spec_c8_null_mid_passthrough PriceImpactThreshold.compressLevelsByPriceImpact
      [⟨"B", "Q", "xb", "xq", Side.bid, []⟩] 0 (by norm_num) hmid⟩
